import Mathlib

/-!
Verification of the msedgedriver manifest cache pipeline (src/main.rs).

The pipeline fetches an XML listing of driver artifacts, parses each
entry name into a (version, platform) key, folds the entries into a
two-level map, and serializes one JSON file per version.  Rust strings
are modelled as lists of characters; the fallible parser returns an
Option; the panic of the `assert!` guard and of `.unwrap()` inside the
aggregation fold is modelled as an Option-valued run outcome.
-/

/-- Helper for the split model: prepends a character to the first
segment of a segment list (used when the head character is not the
separator). -/
def consHead (c : Char) : List (List Char) → List (List Char)
  | [] => [[c]]
  | h :: t => (c :: h) :: t

/-- Model of Rust `str::split(sep)`: splits on every occurrence of the
separator; the empty string yields one empty segment, a trailing
separator yields a trailing empty segment. -/
def splitCh (sep : Char) : List Char → List (List Char)
  | [] => [[]]
  | c :: rest => if c = sep then [] :: splitCh sep rest else consHead c (splitCh sep rest)

/-- Model of Rust `str::strip_prefix`: removes the given leading
characters, or fails. -/
def stripPrefixL (pre s : List Char) : Option (List Char) :=
  if pre <+: s then some (s.drop pre.length) else none

/-- Model of Rust `str::strip_suffix`: removes the given trailing
characters, or fails. -/
def stripSuffixL (suf s : List Char) : Option (List Char) :=
  if suf <:+ s then some (s.take (s.length - suf.length)) else none

/-- Embedding of `struct Version(String)` from src/main.rs. -/
structure Version where
  val : List Char
deriving DecidableEq

/-- Embedding of `struct Platform(String)` from src/main.rs. -/
structure Platform where
  val : List Char
deriving DecidableEq

/-- Embedding of `struct BlobProperties` from src/main.rs (the
deserialized `Properties` element of one listing item; every field is a
string defaulting to empty). -/
structure BlobProperties where
  last_modified : List Char
  etag : List Char
  content_length : List Char
  content_type : List Char
  content_md5 : List Char
deriving DecidableEq

/-- Embedding of `struct Blob` from src/main.rs: one listing entry. -/
structure Blob where
  name : List Char
  url : List Char
  properties : BlobProperties
deriving DecidableEq

/-- Embedding of `struct Properties` from src/main.rs (the output-facing
record; field declaration order is the serialization order). -/
structure Properties where
  url : List Char
  last_modified : List Char
  etag : List Char
  md5 : List Char
  content_length : List Char
  content_type : List Char
deriving DecidableEq

/-- The literal "edgedriver_" wrapper required at the front of the
second name segment in src/main.rs. -/
def edgedriverPre : List Char := "edgedriver_".toList

/-- The literal ".zip" wrapper required at the end of the second name
segment in src/main.rs. -/
def zipSuf : List Char := ".zip".toList

/-- Embedding of `parse_version_and_platform` from src/main.rs.  The
source walks a `split('/')` iterator: the first item becomes the
version, the second is the raw platform segment, and a third item makes
the function return `None` (after a diagnostic eprintln); this is
exactly a match requiring the segment list to have two elements.  The
raw platform segment must then lose the fixed `edgedriver_` prefix and
`.zip` suffix, each a fallible strip chained with the question-mark
operator. -/
def parse_version_and_platform (s : List Char) : Option (Version × Platform) :=
  match splitCh '/' s with
  | [vRaw, platformRaw] =>
    match stripPrefixL edgedriverPre platformRaw with
    | none => none
    | some t =>
      match stripSuffixL zipSuf t with
      | none => none
      | some p => some (⟨vRaw⟩, ⟨p⟩)
  | _ => none

/-- Association-list lookup: the value semantics of `HashMap::get`. -/
def alistLookup {K V : Type} [DecidableEq K] : List (K × V) → K → Option V
  | [], _ => none
  | (k1, v) :: rest, k => if k1 = k then some v else alistLookup rest k

/-- Association-list insert with overwrite: the value semantics of
`HashMap::insert` (the old binding for an existing key is replaced). -/
def alistInsert {K V : Type} [DecidableEq K] : List (K × V) → K → V → List (K × V)
  | [], k, v => [(k, v)]
  | (k1, v1) :: rest, k, v =>
    if k1 = k then (k, v) :: rest else (k1, v1) :: alistInsert rest k v

/-- Embedding of `struct Output(HashMap<Version, HashMap<Platform, Properties>>)`
from src/main.rs.  The HashMaps are modelled as association lists kept in
insertion order; the real HashMap iteration order is unspecified
(seed-dependent), which is made explicit where a claim depends on it. -/
abbrev Output : Type := List (Version × List (Platform × Properties))

/-- Embedding of `impl From<Blob> for Properties` from src/main.rs: the
field projection performed before insertion into the output map. -/
def Properties.fromBlob (blob : Blob) : Properties :=
  ⟨blob.url, blob.properties.last_modified, blob.properties.etag,
    blob.properties.content_md5, blob.properties.content_length,
    blob.properties.content_type⟩

/-- One step of the aggregation fold in `run` (src/main.rs lines
114-124): parse the blob name (`.unwrap()` — a parse failure panics,
modelled as `none`), fetch or create the per-version inner map
(`entry(version).or_default()`), and insert the projected properties at
the platform key. -/
def aggStep (acc : Output) (blob : Blob) : Option Output :=
  match parse_version_and_platform blob.name with
  | none => none
  | some (version, platform) =>
    let inner := (alistLookup acc version).getD []
    some (alistInsert acc version (alistInsert inner platform (Properties.fromBlob blob)))

/-- The aggregation fold of `run` starting from a given accumulator; a
panic (`none`) at any step aborts the whole fold. -/
def aggregateFrom (acc : Output) : List Blob → Option Output
  | [] => some acc
  | blob :: rest =>
    match aggStep acc blob with
    | none => none
    | some acc2 => aggregateFrom acc2 rest

/-- The aggregation fold of `run` over the deserialized entry list,
starting from `Output::default()`. -/
def aggregate (blobs : List Blob) : Option Output := aggregateFrom [] blobs

/-- Two-level lookup in the aggregated output: `output.0[v][p]`. -/
def indexLookup (out : Output) (v : Version) (p : Platform) : Option Properties :=
  match alistLookup out v with
  | none => none
  | some inner => alistLookup inner p

/-- Modelled from the spec: JSON string escaping performed by the
external `serde_json` serializer (src/main.rs only calls
`serde_json::to_string_pretty`; the serializer itself is library code
outside this repository). -/
def escapeJsonChar (c : Char) : List Char :=
  if c = '\x22' then ['\\', '\x22']
  else if c = '\\' then ['\\', '\\']
  else if c = '\n' then ['\\', 'n']
  else if c = '\t' then ['\\', 't']
  else if c = '\r' then ['\\', 'r']
  else [c]

/-- A JSON string literal for a raw character list. -/
def jsonStr (s : List Char) : String :=
  "\x22" ++ ((s.map escapeJsonChar).flatten).asString ++ "\x22"

/-- Modelled from the spec: `serde_json::to_string_pretty` of one
`Properties` record nested one level inside the platform map (2-space
indentation per level).  The field order is the declaration order of
`struct Properties` in src/main.rs together with its serde renames:
url, lastModified, etag, md5, contentLength, contentType. -/
def serializeProperties (pr : Properties) : String :=
  "\x7b\n    \x22url\x22: " ++ jsonStr pr.url ++
  ",\n    \x22lastModified\x22: " ++ jsonStr pr.last_modified ++
  ",\n    \x22etag\x22: " ++ jsonStr pr.etag ++
  ",\n    \x22md5\x22: " ++ jsonStr pr.md5 ++
  ",\n    \x22contentLength\x22: " ++ jsonStr pr.content_length ++
  ",\n    \x22contentType\x22: " ++ jsonStr pr.content_type ++
  "\n  \x7d"

/-- Modelled from the spec: `serde_json::to_string_pretty` of one
version's platform map, applied to the sequence of
(platform, properties) entries in the order the map iteration yields
them.  For the real `HashMap` that iteration order is unspecified and
seed-dependent, so the order is an explicit argument here. -/
def serializeProps (entries : List (Platform × Properties)) : String :=
  match entries with
  | [] => "\x7b\x7d"
  | _ =>
    "\x7b\n" ++
    String.intercalate ",\n"
      (entries.map (fun e => "  " ++ jsonStr e.1.val ++ ": " ++ serializeProperties e.2)) ++
    "\n\x7d"

/-- Outcome of one pipeline run over an already-deserialized entry
list: the per-version files written (name, content) and whether the run
failed (an error return or a panic). -/
structure RunOutcome where
  files : List (List Char × String)
  failed : Bool
deriving DecidableEq

/-- The emit loop of `run` (src/main.rs lines 126-132): one file
`<version>.json` per version key, containing the pretty-printed
platform map. -/
def emitFiles (out : Output) : List (List Char × String) :=
  out.map (fun e => (e.1.val ++ ".json".toList, serializeProps e.2))

/-- Embedding of `run` from src/main.rs after deserialization of the
manifest (directory preparation, the network fetch, the verbatim
manifest.xml write and XML deserialization are external collaborators
handled before this point).  The source asserts
`results.blobs.blobs.len() > 1` (a panic when the listing has at most
one entry), folds the entries through `aggStep` where a name-parse
failure panics via `.unwrap()`, and then writes one file per version.
A panic is modelled as `failed = true` with no version files written,
since both panics fire before the emit loop. -/
def run (blobs : List Blob) : RunOutcome :=
  if 1 < blobs.length then
    match aggregate blobs with
    | some out => ⟨emitFiles out, false⟩
    | none => ⟨[], true⟩
  else ⟨[], true⟩

/-- Modelled from the spec: the serde-derived tolerant deserializer for
`BlobProperties` (the derive expansion is library code, not under
src/; src/main.rs declares each field with a serde rename and
`default`).  Each field is looked up by its renamed XML tag among the
fields present in the document and defaults to the empty string when
absent. -/
def deserializeBlobProperties (fields : List (List Char × List Char)) : BlobProperties :=
  ⟨(alistLookup fields "Last-Modified".toList).getD [],
    (alistLookup fields "Etag".toList).getD [],
    (alistLookup fields "Content-Length".toList).getD [],
    (alistLookup fields "Content-Type".toList).getD [],
    (alistLookup fields "Content-MD5".toList).getD []⟩

/-- A blob whose name parses: version "1.0", platform "arm64". -/
def blobGood : Blob := ⟨"1.0/edgedriver_arm64.zip".toList, "urlA".toList, ⟨[], [], [], [], []⟩⟩

/-- A second blob with the same (version, platform) key as `blobGood`
but a different payload. -/
def blobGood2 : Blob := ⟨"1.0/edgedriver_arm64.zip".toList, "urlB".toList, ⟨[], [], [], [], []⟩⟩

/-- A blob whose name does not parse (no slash). -/
def blobBad : Blob := ⟨"garbage".toList, "urlC".toList, ⟨[], [], [], [], []⟩⟩

/-- The version key "1.0". -/
def vOne : Version := ⟨"1.0".toList⟩

/-- The platform key "arm64". -/
def pArm : Platform := ⟨"arm64".toList⟩

/-- The platform key "win32". -/
def pWin : Platform := ⟨"win32".toList⟩

/-- The aggregated output of `[blobGood, blobGood2]`: one version, one
platform, carrying the projection of the later blob. -/
def aggExample : Output := [(vOne, [(pArm, Properties.fromBlob blobGood2)])]

/-- The aggregated output of `[blobGood]` alone. -/
def aggExampleG : Output := [(vOne, [(pArm, Properties.fromBlob blobGood)])]

/-- A fully populated properties record used to exercise the
serializer. -/
def propsA : Properties :=
  ⟨"uA".toList, "lmA".toList, "eA".toList, "mA".toList, "clA".toList, "ctA".toList⟩

/-- A second fully populated properties record. -/
def propsB : Properties :=
  ⟨"uB".toList, "lmB".toList, "eB".toList, "mB".toList, "clB".toList, "ctB".toList⟩

/-! ## Helper lemmas about the split model -/

theorem splitCh_ne_nil (sep : Char) (l : List Char) : splitCh sep l ≠ [] := by
  induction l with
  | nil => simp [splitCh]
  | cons c rest ih =>
    simp only [splitCh]
    split
    · simp
    · cases h : splitCh sep rest with
      | nil => simp [consHead]
      | cons a t => simp [consHead]

theorem splitCh_no_sep {sep : Char} {l : List Char} (h : sep ∉ l) : splitCh sep l = [l] := by
  induction l with
  | nil => rfl
  | cons c rest ih =>
    simp only [List.mem_cons, not_or] at h
    have hc : ¬ c = sep := fun hh => h.1 hh.symm
    simp [splitCh, hc, ih h.2, consHead]

theorem splitCh_sep_append {sep : Char} {v w : List Char} (h : sep ∉ v) :
    splitCh sep (v ++ sep :: w) = v :: splitCh sep w := by
  induction v with
  | nil => simp [splitCh]
  | cons c rest ih =>
    simp only [List.mem_cons, not_or] at h
    have hc : ¬ c = sep := fun hh => h.1 hh.symm
    simp only [List.cons_append, splitCh, hc, if_false, List.append_eq]
    rw [ih h.2]
    rfl

/-- A well-formed name `v ++ "/edgedriver_" ++ p ++ ".zip"` (with no
slash inside either component) parses to exactly its two components; no
emptiness condition is required by the source. -/
theorem parse_wellformed {v p : List Char} (hv : '/' ∉ v) (hp : '/' ∉ p) :
    parse_version_and_platform (v ++ '/' :: (edgedriverPre ++ (p ++ zipSuf))) =
      some (⟨v⟩, ⟨p⟩) := by
  have hw : '/' ∉ edgedriverPre ++ (p ++ zipSuf) := by
    intro hmem
    simp only [List.mem_append] at hmem
    rcases hmem with h1 | h2 | h3
    · exact absurd h1 (by decide)
    · exact hp h2
    · exact absurd h3 (by decide)
  have h1 : stripPrefixL edgedriverPre (edgedriverPre ++ (p ++ zipSuf)) = some (p ++ zipSuf) := by
    unfold stripPrefixL
    rw [if_pos (List.prefix_append _ _), List.drop_left]
  have h2 : stripSuffixL zipSuf (p ++ zipSuf) = some p := by
    unfold stripSuffixL
    rw [if_pos (List.suffix_append _ _)]
    simp only [List.length_append, Nat.add_sub_cancel]
    rw [List.take_left]
  unfold parse_version_and_platform
  rw [splitCh_sep_append hv, splitCh_no_sep hw]
  simp [h1, h2]

/-! ## Claim theorems: the name parser -/

/-- Claim C5: for every version string without a slash and every
non-empty platform string without a slash, the composed name
`v ++ "/edgedriver_" ++ p ++ ".zip"` parses to exactly
`Some (Version v, Platform p)`. -/
theorem wellformed_names_parse (v p : List Char) (hv : '/' ∉ v) (hp : '/' ∉ p)
    (_hne : p ≠ []) :
    parse_version_and_platform (v ++ '/' :: (edgedriverPre ++ (p ++ zipSuf))) =
      some (⟨v⟩, ⟨p⟩) :=
  parse_wellformed hv hp

/-- Witness for C5 at the concrete name of the source's own test:
`100.0.1154.0/edgedriver_arm64.zip` parses to version `100.0.1154.0`
and platform `arm64`. -/
theorem wellformed_names_parse_witness :
    parse_version_and_platform "100.0.1154.0/edgedriver_arm64.zip".toList =
      some (⟨"100.0.1154.0".toList⟩, ⟨"arm64".toList⟩) := by
  rw [(by decide :
    ("100.0.1154.0/edgedriver_arm64.zip".toList : List Char) =
      "100.0.1154.0".toList ++ '/' :: (edgedriverPre ++ ("arm64".toList ++ zipSuf)))]
  exact wellformed_names_parse _ _ (by decide) (by decide) (by decide)

/-- Claim C2, counterexample: the source parser performs no emptiness
checks, so `1.0/edgedriver_.zip` parses to a Some value with an empty
platform, and a name with an empty first segment parses to a Some value
with an empty version — the claim says both yield None. -/
theorem empty_components_accepted :
    parse_version_and_platform "1.0/edgedriver_.zip".toList =
      some (⟨"1.0".toList⟩, ⟨[]⟩) ∧
    parse_version_and_platform "/edgedriver_arm64.zip".toList =
      some (⟨[]⟩, ⟨"arm64".toList⟩) := by
  constructor
  · decide
  · decide

/-- Claim C2 as amended: `parse_version_and_platform` checks only the
segment count and the fixed wrapper, never non-emptiness; any
slash-free version and slash-free platform — including empty ones —
round-trip through the composed name to a Some result. -/
theorem parse_no_emptiness_check (v p : List Char) (hv : '/' ∉ v) (hp : '/' ∉ p) :
    parse_version_and_platform (v ++ '/' :: (edgedriverPre ++ (p ++ zipSuf))) =
      some (⟨v⟩, ⟨p⟩) :=
  parse_wellformed hv hp

/-- Witness for the amended C2 at the fully degenerate input: both
components empty. -/
theorem parse_no_emptiness_check_witness :
    parse_version_and_platform ([] ++ '/' :: (edgedriverPre ++ ([] ++ zipSuf))) =
      some (⟨[]⟩, ⟨[]⟩) :=
  parse_no_emptiness_check [] [] (by decide) (by decide)

/-- Claim C6: the parser rejects any input that does not split into
exactly two `/`-separated segments, and any two-segment input whose
second segment lacks the `edgedriver_` prefix or the `.zip` suffix. -/
theorem malformed_names_rejected (s : List Char) :
    ((splitCh '/' s).length ≠ 2 → parse_version_and_platform s = none) ∧
    (∀ vRaw r, splitCh '/' s = [vRaw, r] →
      (¬ edgedriverPre <+: r ∨ ¬ zipSuf <:+ r) →
      parse_version_and_platform s = none) := by
  constructor
  · intro h
    unfold parse_version_and_platform
    rcases hs : splitCh '/' s with _ | ⟨a, _ | ⟨b, _ | ⟨c, t⟩⟩⟩
    · rfl
    · rfl
    · exact absurd (by simp [hs] : (splitCh '/' s).length = 2) h
    · rfl
  · intro vRaw r hsplit hbad
    unfold parse_version_and_platform
    rw [hsplit]
    rcases hbad with hpre | hsuf
    · have h1 : stripPrefixL edgedriverPre r = none := by
        unfold stripPrefixL
        rw [if_neg hpre]
      simp [h1]
    · cases hsp : stripPrefixL edgedriverPre r with
      | none => simp [hsp]
      | some t =>
        have ht : t <:+ r := by
          unfold stripPrefixL at hsp
          split at hsp
          · cases hsp
            exact List.drop_suffix _ _
          · cases hsp
        have h2 : stripSuffixL zipSuf t = none := by
          unfold stripSuffixL
          exact if_neg (fun hcon => hsuf (hcon.trans ht))
        simp [hsp, h2]

/-- Witness for C6 at the claim's own examples: a three-segment name
and a two-segment name with the wrong suffix are both rejected. -/
theorem malformed_names_rejected_witness :
    ((splitCh '/' "a/b/c".toList).length ≠ 2 ∧
      parse_version_and_platform "a/b/c".toList = none) ∧
    (splitCh '/' "1.0/edgedriver_arm64.tar".toList =
        ["1.0".toList, "edgedriver_arm64.tar".toList] ∧
      ¬ zipSuf <:+ "edgedriver_arm64.tar".toList ∧
      parse_version_and_platform "1.0/edgedriver_arm64.tar".toList = none) := by
  refine ⟨⟨by decide, (malformed_names_rejected _).1 (by decide)⟩,
    by decide, by decide,
    (malformed_names_rejected _).2 ("1.0".toList) ("edgedriver_arm64.tar".toList)
      (by decide) (Or.inr (by decide))⟩

/-! ## Claim theorems: order independence of the two-sided strip -/

/-- Stripping a fixed leading wrapper and then a fixed trailing wrapper
gives the same fallible outcome as stripping them in the other order,
for arbitrary wrappers. -/
theorem strip_both_comm (pre suf s : List Char) :
    (stripPrefixL pre s).bind (fun t => stripSuffixL suf t) =
    (stripSuffixL suf s).bind (fun t => stripPrefixL pre t) := by
  by_cases hp : pre <+: s
  · by_cases hs : suf <:+ s
    · obtain ⟨t, ht⟩ := hs
      subst ht
      have e3 : stripSuffixL suf (t ++ suf) = some t := by
        rw [stripSuffixL, if_pos (List.suffix_append _ _)]
        rw [List.length_append, Nat.add_sub_cancel, List.take_left]
      by_cases hl : pre.length ≤ t.length
      · have hpt : pre <+: t := by
          have h2 := List.prefix_iff_eq_take.mp hp
          rw [List.take_append_of_le_length hl] at h2
          rw [h2]
          exact ⟨t.drop pre.length, List.take_append_drop _ _⟩
        have e1 : stripPrefixL pre (t ++ suf) = some (t.drop pre.length ++ suf) := by
          rw [stripPrefixL, if_pos hp, List.drop_append_of_le_length hl]
        have e2 : stripSuffixL suf (t.drop pre.length ++ suf) = some (t.drop pre.length) := by
          rw [stripSuffixL, if_pos (List.suffix_append _ _)]
          rw [List.length_append, Nat.add_sub_cancel, List.take_left]
        have e4 : stripPrefixL pre t = some (t.drop pre.length) := by
          rw [stripPrefixL, if_pos hpt]
        rw [e1, e3, Option.some_bind, Option.some_bind, e2, e4]
      · have hle := hp.length_le
        rw [List.length_append] at hle
        have e1 : stripPrefixL pre (t ++ suf) = some ((t ++ suf).drop pre.length) := by
          rw [stripPrefixL, if_pos hp]
        have hlen : ((t ++ suf).drop pre.length).length < suf.length := by
          rw [List.length_drop, List.length_append]
          omega
        have e2 : stripSuffixL suf ((t ++ suf).drop pre.length) = none := by
          rw [stripSuffixL]
          exact if_neg (fun hcon => absurd hcon.length_le (by omega))
        have e4 : stripPrefixL pre t = none := by
          rw [stripPrefixL]
          exact if_neg (fun hcon => absurd hcon.length_le (by omega))
        rw [e1, e3, Option.some_bind, Option.some_bind, e2, e4]
    · have e1 : stripPrefixL pre s = some (s.drop pre.length) := by
        rw [stripPrefixL, if_pos hp]
      have e2 : stripSuffixL suf (s.drop pre.length) = none := by
        rw [stripSuffixL]
        exact if_neg (fun hcon => hs (hcon.trans (List.drop_suffix _ _)))
      have e3 : stripSuffixL suf s = none := by
        rw [stripSuffixL]
        exact if_neg hs
      rw [e1, e3, Option.some_bind, Option.none_bind, e2]
  · by_cases hs : suf <:+ s
    · have e1 : stripPrefixL pre s = none := by
        rw [stripPrefixL]
        exact if_neg hp
      have e3 : stripSuffixL suf s = some (s.take (s.length - suf.length)) := by
        rw [stripSuffixL, if_pos hs]
      have e4 : stripPrefixL pre (s.take (s.length - suf.length)) = none := by
        rw [stripPrefixL]
        refine if_neg (fun hcon => hp ?_)
        exact hcon.trans ⟨s.drop (s.length - suf.length), List.take_append_drop _ _⟩
      rw [e1, e3, Option.none_bind, Option.some_bind, e4]
    · have e1 : stripPrefixL pre s = none := by
        rw [stripPrefixL]
        exact if_neg hp
      have e3 : stripSuffixL suf s = none := by
        rw [stripSuffixL]
        exact if_neg hs
      rw [e1, e3, Option.none_bind, Option.none_bind]

/-- Claim C10: for every raw second segment, stripping the
`edgedriver_` prefix then the `.zip` suffix succeeds exactly when
stripping them in the other order succeeds, with the same remainder —
the two fallible outcomes are equal as options. -/
theorem strip_order_independent (s : List Char) :
    (stripPrefixL edgedriverPre s).bind (fun t => stripSuffixL zipSuf t) =
    (stripSuffixL zipSuf s).bind (fun t => stripPrefixL edgedriverPre t) :=
  strip_both_comm edgedriverPre zipSuf s

/-! ## Helper lemmas about the aggregation fold -/

theorem alistLookup_insert {K V : Type} [DecidableEq K]
    (m : List (K × V)) (k k2 : K) (v : V) :
    alistLookup (alistInsert m k v) k2 = if k = k2 then some v else alistLookup m k2 := by
  induction m with
  | nil => simp [alistInsert, alistLookup]
  | cons hd tl ih =>
    obtain ⟨k1, v1⟩ := hd
    by_cases h1 : k1 = k
    · subst h1
      by_cases h2 : k1 = k2
      · subst h2
        simp [alistInsert, alistLookup]
      · simp [alistInsert, alistLookup, h2]
    · by_cases h2 : k1 = k2
      · subst h2
        have h3 : ¬ k = k1 := fun hh => h1 hh.symm
        simp [alistInsert, alistLookup, h1, h3]
      · simp [alistInsert, alistLookup, h1, h2, ih]

theorem indexLookup_aggInsert (acc : Output) (v : Version) (p : Platform)
    (pr : Properties) (v2 : Version) (p2 : Platform) :
    indexLookup (alistInsert acc v (alistInsert ((alistLookup acc v).getD []) p pr)) v2 p2 =
      if v = v2 ∧ p = p2 then some pr else indexLookup acc v2 p2 := by
  unfold indexLookup
  rw [alistLookup_insert]
  by_cases hv : v = v2
  · subst hv
    rw [if_pos rfl]
    show alistLookup (alistInsert ((alistLookup acc v).getD []) p pr) p2 = _
    rw [alistLookup_insert]
    by_cases hp : p = p2
    · rw [if_pos hp, if_pos ⟨rfl, hp⟩]
    · rw [if_neg hp, if_neg (fun hh => hp hh.2)]
      cases hacc : alistLookup acc v with
      | none => simp [hacc, alistLookup]
      | some inner => simp [hacc]
  · rw [if_neg hv, if_neg (fun hh => hv hh.1)]

/-- Does this blob's name parse to exactly the given key pair? -/
def parsesTo (v : Version) (p : Platform) (b : Blob) : Bool :=
  decide (parse_version_and_platform b.name = some (v, p))

theorem aggregateFrom_lookup (blobs : List Blob) :
    ∀ acc out v p, aggregateFrom acc blobs = some out →
      indexLookup out v p =
        (match blobs.reverse.find? (parsesTo v p) with
          | some b => some (Properties.fromBlob b)
          | none => indexLookup acc v p) := by
  induction blobs with
  | nil =>
    intro acc out v p h
    simp only [aggregateFrom] at h
    cases h
    simp
  | cons b rest ih =>
    intro acc out v p h
    simp only [aggregateFrom, aggStep] at h
    cases hpb : parse_version_and_platform b.name with
    | none => rw [hpb] at h; cases h
    | some vp =>
      obtain ⟨vb, pb⟩ := vp
      rw [hpb] at h
      simp only at h
      have hrec := ih _ out v p h
      rw [hrec, List.reverse_cons, List.find?_append]
      cases hfind : rest.reverse.find? (parsesTo v p) with
      | some b2 => simp [hfind, Option.or]
      | none =>
        simp only [hfind, Option.none_or]
        rw [indexLookup_aggInsert]
        by_cases hm : vb = v ∧ pb = p
        · have hpt : parsesTo v p b = true := by
            simp [parsesTo, hpb, hm.1, hm.2]
          simp [List.find?, hpt, hm]
        · have hpt : parsesTo v p b = false := by
            simp only [parsesTo, hpb, decide_eq_false_iff_not]
            intro hcon
            cases hcon
            exact hm ⟨rfl, rfl⟩
          simp [List.find?, hpt, hm]

/-- If any entry in the list fails to parse, the aggregation fold
panics (returns `none`), whatever the accumulator. -/
theorem aggregateFrom_none_of_bad {blobs : List Blob}
    (h : ∃ b ∈ blobs, parse_version_and_platform b.name = none) :
    ∀ acc, aggregateFrom acc blobs = none := by
  induction blobs with
  | nil => simp at h
  | cons b rest ih =>
    intro acc
    obtain ⟨b2, hmem, hpar⟩ := h
    simp only [aggregateFrom, aggStep]
    rcases List.mem_cons.mp hmem with rfl | hr
    · rw [hpar]
    · cases hpb : parse_version_and_platform b.name with
      | none => rfl
      | some vp =>
        obtain ⟨vb, pb⟩ := vp
        simp only
        exact ih ⟨b2, hr, hpar⟩ _

/-! ## Claim theorems: aggregation and the run driver -/

/-- Claim C7: last-write-wins.  Whenever the aggregation fold completes,
the index at any (version, platform) key holds exactly the projected
properties of the last entry in listing order whose name parses to that
key (so of two duplicate entries, the later one wins). -/
theorem last_write_wins (blobs : List Blob) (out : Output) (v : Version) (p : Platform)
    (h : aggregate blobs = some out) :
    indexLookup out v p =
      (blobs.reverse.find? (parsesTo v p)).map Properties.fromBlob := by
  rw [aggregateFrom_lookup blobs [] out v p h]
  cases hfind : blobs.reverse.find? (parsesTo v p) with
  | some b => simp
  | none => simp [indexLookup, alistLookup]

/-- Witness for C7 at the claim's example: two entries with the same
(version, platform) key, the later one's properties survive. -/
theorem last_write_wins_witness :
    indexLookup aggExample vOne pArm = some (Properties.fromBlob blobGood2) := by
  rw [last_write_wins [blobGood, blobGood2] aggExample vOne pArm (by decide)]
  decide

/-- Claim C1, counterexample: an entry whose name fails to parse is not
skipped — it aborts the whole run (the fold unwraps the parse result),
even though the remaining entries alone would aggregate to a non-empty
index.  With `blobBad` unparseable, the two-entry listing passes the
length guard yet the run fails and writes nothing, while the
successfully parsed entry alone yields a non-empty output. -/
theorem parse_failure_aborts_run :
    parse_version_and_platform blobBad.name = none ∧
    1 < ([blobGood, blobBad] : List Blob).length ∧
    run [blobGood, blobBad] = ⟨[], true⟩ ∧
    aggregate [blobGood] = some aggExampleG ∧
    emitFiles aggExampleG ≠ [] := by
  refine ⟨by decide, by decide, by decide, by decide, by decide⟩

/-- Claim C1 as amended: a name-parse failure in any entry of a listing
that passes the length guard is surfaced as a run failure — the run
panics, no per-version file is written, and no index is produced. -/
theorem parse_failure_fails_run (blobs : List Blob) (hlen : 1 < blobs.length)
    (h : ∃ b ∈ blobs, parse_version_and_platform b.name = none) :
    run blobs = ⟨[], true⟩ := by
  unfold run aggregate
  rw [if_pos hlen, aggregateFrom_none_of_bad h []]

/-- Witness for the amended C1 at the concrete two-entry listing with
one unparseable name. -/
theorem parse_failure_fails_run_witness :
    run [blobGood, blobBad] = ⟨[], true⟩ :=
  parse_failure_fails_run [blobGood, blobBad] (by decide) ⟨blobBad, by decide, by decide⟩

/-- Claim C3: the empty-manifest guard.  A listing with at most one
entry makes the run fail before aggregation with no per-version file
written; a listing with more than one entry passes the guard, and the
run proceeds to the aggregation fold and the emit loop. -/
theorem empty_manifest_guard (blobs : List Blob) :
    (blobs.length ≤ 1 → run blobs = ⟨[], true⟩) ∧
    (1 < blobs.length → ∀ out, aggregate blobs = some out →
      run blobs = ⟨emitFiles out, false⟩) := by
  constructor
  · intro h
    unfold run
    rw [if_neg (by omega)]
  · intro h out hagg
    unfold run
    rw [if_pos h, hagg]

/-- Witness for C3: the empty listing and a singleton listing both fail
with no files; a two-entry listing passes the guard and emits. -/
theorem empty_manifest_guard_witness :
    run ([] : List Blob) = ⟨[], true⟩ ∧
    run [blobGood] = ⟨[], true⟩ ∧
    run [blobGood, blobGood2] = ⟨emitFiles aggExample, false⟩ :=
  ⟨(empty_manifest_guard []).1 (by decide),
    (empty_manifest_guard [blobGood]).1 (by decide),
    (empty_manifest_guard [blobGood, blobGood2]).2 (by decide) aggExample (by decide)⟩

/-! ## Claim theorems: emitter determinism, projection, deserialization -/

/-- Claim C4, counterexample: the bytes emitted for one version are not
a function of the platform map's contents alone — they depend on the
iteration order of the underlying HashMap.  The same two-entry map
serialized in its two possible iteration orders yields different
bytes, so two runs over identical fetched content need not produce
byte-identical files. -/
theorem serialization_order_dependent :
    ([(pArm, propsA), (pWin, propsB)] : List (Platform × Properties)).Perm
      [(pWin, propsB), (pArm, propsA)] ∧
    serializeProps [(pArm, propsA), (pWin, propsB)] ≠
      serializeProps [(pWin, propsB), (pArm, propsA)] := by
  constructor
  · exact List.Perm.swap _ _ _
  · decide

/-- Claim C4 as amended: the emitted serialization is a deterministic
function of the iteration sequence of each version's platform map, with
a fixed field order inside each record; two runs therefore produce
byte-identical files whenever each map is iterated in the same order,
and unconditionally for every version with at most one platform. -/
theorem serialization_deterministic_small (l1 l2 : List (Platform × Properties))
    (hperm : l1.Perm l2) (hlen : l1.length ≤ 1) :
    serializeProps l1 = serializeProps l2 := by
  have : l1 = l2 := by
    cases l1 with
    | nil => exact (List.Perm.eq_nil hperm.symm).symm
    | cons a t =>
      cases t with
      | cons b t2 => simp at hlen
      | nil => exact (List.perm_singleton.mp hperm.symm).symm
  rw [this]

/-- Witness for the amended C4 at a singleton platform map. -/
theorem serialization_deterministic_small_witness :
    serializeProps [(pArm, propsA)] = serializeProps [(pArm, propsA)] :=
  serialization_deterministic_small [(pArm, propsA)] [(pArm, propsA)]
    (List.Perm.refl _) (by decide)

/-- Claim C8: the Blob-to-Properties conversion is a pure field
renaming — every output field is verbatim one input field, with
`content_md5` renamed to `md5`, and nothing else is computed. -/
theorem projection_is_field_renaming (blob : Blob) :
    (Properties.fromBlob blob).url = blob.url ∧
    (Properties.fromBlob blob).last_modified = blob.properties.last_modified ∧
    (Properties.fromBlob blob).etag = blob.properties.etag ∧
    (Properties.fromBlob blob).md5 = blob.properties.content_md5 ∧
    (Properties.fromBlob blob).content_length = blob.properties.content_length ∧
    (Properties.fromBlob blob).content_type = blob.properties.content_type :=
  ⟨rfl, rfl, rfl, rfl, rfl, rfl⟩

/-- Claim C9: tolerant deserialization.  For any set of fields present
in a recognized item, deserialization always succeeds (the deserializer
is total), and each metadata field absent from the document comes out
as the empty string rather than an error — in particular a missing
Content-MD5 yields an empty md5. -/
theorem tolerant_deserialization (fields : List (List Char × List Char)) :
    (alistLookup fields "Content-MD5".toList = none →
      (deserializeBlobProperties fields).content_md5 = []) ∧
    (alistLookup fields "Last-Modified".toList = none →
      (deserializeBlobProperties fields).last_modified = []) ∧
    (alistLookup fields "Etag".toList = none →
      (deserializeBlobProperties fields).etag = []) ∧
    (alistLookup fields "Content-Length".toList = none →
      (deserializeBlobProperties fields).content_length = []) ∧
    (alistLookup fields "Content-Type".toList = none →
      (deserializeBlobProperties fields).content_type = []) := by
  refine ⟨?_, ?_, ?_, ?_, ?_⟩ <;>
    intro h <;>
    simp only [deserializeBlobProperties] <;>
    rw [h] <;>
    rfl

/-- Witness for C9: an item carrying only an Etag deserializes with an
empty md5 field. -/
theorem tolerant_deserialization_witness :
    (deserializeBlobProperties [("Etag".toList, "abc".toList)]).content_md5 = [] :=
  (tolerant_deserialization [("Etag".toList, "abc".toList)]).1 (by decide)
